import Mathlib

/-!
# Verification of `optimized-quiz-performance.js`

Shallow embedding of the client-side quiz helper
(`src/assets/js/optimized-quiz-performance.js`): a TTL media cache, a named
debouncer over an abstract timer system, a DOM question locator, the media
fetch/render pipeline, the answer mutation watcher, and the teardown routine.

Modelling conventions:
* JS `Date.now()` timestamps and `setTimeout` deadlines are `Nat` milliseconds.
* The jQuery/DOM surface is embedded as explicit data (lists of elements,
  class flags); DOM reads are pure functions of that data.
* A JS value used in a truthiness test (`if (x)`, `a || b`) is embedded as a
  `JVal` (number or string) with an explicit `truthy` predicate; an absent
  value (`undefined`) is `Option.none`.
* All state mutation is explicit state passing; the single-threaded event
  loop is a fold over an event list.
-/

namespace QuizPerf

/-- The `config` literal at the top of the script. -/
structure Config where
  maxQuestions : Nat
  batchSize : Nat
  debounceDelay : Nat
  maxRetries : Nat
  cacheTimeout : Nat
  debug : Bool
deriving Repr, DecidableEq

/-- `config = { maxQuestions: 500, batchSize: 50, debounceDelay: 100,
maxRetries: 3, cacheTimeout: 30000, debug: false }`. -/
def config : Config :=
  { maxQuestions := 500, batchSize := 50, debounceDelay := 100,
    maxRetries := 3, cacheTimeout := 30000, debug := false }

/-! ## JS values and truthiness -/

/-- A primitive JS value as it flows through this script: a number or a
string (question ids come from `data-question-id` attributes or from
`.index() + 1`). -/
inductive JVal where
  | num (n : Int)
  | str (s : String)
deriving Repr, DecidableEq

/-- JS truthiness for the values above: `0` and `""` are falsy. -/
def truthy : JVal → Bool
  | .num n => n != 0
  | .str s => s != ""

/-- JS `a || b` where `a` may be `undefined` (`none`) and `b` is present:
returns `a` when truthy, otherwise `b`. -/
def jsOrV (a : Option JVal) (b : JVal) : JVal :=
  match a with
  | some v => if truthy v then v else b
  | none => b

/-- JS `a || b` on strings (used for `mediaData.alt || 'Question media'`);
`none` models `undefined`, `""` is falsy. -/
def jsOrS (a : Option String) (b : String) : String :=
  match a with
  | some s => if s != "" then s else b
  | none => b

/-! ## Media payloads and the renderer (`displayMedia`, `displayFallbackMedia`) -/

/-- The media descriptor the server returns: `{ type, url, alt }`
(the spec calls `type` the payload's *kind*). -/
structure MediaData where
  type : String
  url : String
  alt : Option String
deriving Repr, DecidableEq

/-- A DOM node as produced by the renderer: the `img` element built in the
`image` branch, the `video` element built in the `video` branch, or a
`div` (used for the fallback markup and for arbitrary prior content). -/
inductive DomNode where
  | img (src : String) (alt : String) (loadingLazy : Bool)
  | video (src : String) (controls : Bool) (preload : String)
  | divNode (cls : String) (text : String)
deriving Repr, DecidableEq

/-- Whether a node is a media element (an `img` or a `video`). -/
def DomNode.isMediaElement : DomNode → Bool
  | .img _ _ _ => true
  | .video _ _ _ => true
  | .divNode _ _ => false

/-- The `DocumentFragment` built by `displayMedia`: one `img` for
`type === 'image'`, one `video` for `type === 'video'`, nothing otherwise. -/
def buildMediaFragment (mediaData : MediaData) : List DomNode :=
  if mediaData.type = "image" then
    [.img mediaData.url (jsOrS mediaData.alt "Question media") true]
  else if mediaData.type = "video" then
    [.video mediaData.url true "metadata"]
  else
    []

/-- `displayMedia(mediaData)`: the `#question-media` container is modelled as
`Option (List DomNode)` (`none` when absent, in which case the function
returns early). When present, `innerHTML = ''` followed by
`appendChild(fragment)` replaces the children with exactly the fragment. -/
def displayMedia (mediaData : MediaData) (container : Option (List DomNode)) :
    Option (List DomNode) :=
  match container with
  | none => none
  | some _ => some (buildMediaFragment mediaData)

/-- The fallback markup `<div class="no-media">No media available</div>`. -/
def fallbackMarkup : List DomNode :=
  [.divNode "no-media" "No media available"]

/-- `displayFallbackMedia()`: replace the container's content (when the
container exists) with the fallback markup. -/
def displayFallbackMedia (container : Option (List DomNode)) :
    Option (List DomNode) :=
  match container with
  | none => none
  | some _ => some fallbackMarkup

/-- The render contract claimed for a container's content: exactly one media
element, or exactly the fallback markup. -/
def oneMediaOrFallback (ns : List DomNode) : Bool :=
  (match ns with
   | [n] => n.isMediaElement
   | _ => false) || ns == fallbackMarkup

/-! ## TTL media cache (`cacheMedia`, `getCachedMedia`) -/

/-- A cache entry `{ data, timestamp }` as stored by `cacheMedia`. -/
structure CacheEntry where
  data : MediaData
  timestamp : Nat
deriving Repr, DecidableEq

/-- `state.mediaCache`: a `Map` from question id to entry, embedded as an
association list with at most one binding per key. -/
abbrev Cache := List (Nat × CacheEntry)

/-- `Map.get`: the binding for a key, if any. -/
def lookupC : Cache → Nat → Option CacheEntry
  | [], _ => none
  | p :: rest, k => if p.1 = k then some p.2 else lookupC rest k

/-- `Map.delete`: remove the binding for a key. -/
def eraseC (c : Cache) (k : Nat) : Cache :=
  c.filter (fun p => p.1 != k)

/-- `cacheMedia(questionId, mediaData)`: store the payload with the current
timestamp, overwriting any prior binding (`Map.set`). -/
def cacheMedia (c : Cache) (questionId : Nat) (mediaData : MediaData)
    (now : Nat) : Cache :=
  (questionId, ⟨mediaData, now⟩) :: eraseC c questionId

/-- `getCachedMedia(questionId)`: return the stored payload when the entry is
younger than `config.cacheTimeout`; otherwise `Map.delete` the key and
return `null`. The returned `Cache` is the map after the call (the read
mutates the map on the stale/missing path). -/
def getCachedMedia (c : Cache) (questionId : Nat) (now : Nat) :
    Option MediaData × Cache :=
  match lookupC c questionId with
  | some cached =>
      if now - cached.timestamp < config.cacheTimeout then
        (some cached.data, c)
      else
        (none, eraseC c questionId)
  | none => (none, eraseC c questionId)

theorem lookupC_eraseC_self (c : Cache) (k : Nat) :
    lookupC (eraseC c k) k = none := by
  induction c with
  | nil => rfl
  | cons p rest ih =>
      simp only [eraseC, List.filter_cons] at ih ⊢
      by_cases h : p.1 = k
      · simpa [h] using ih
      · simpa [h, lookupC] using ih

/-! ## Question locator (`getCurrentQuestionId`) -/

/-- A `.wpProQuiz_listItem` element as seen by the locator's selectors:
whether it carries the review-target class, whether it is `:visible`,
whether it sits under `.wpProQuiz_questionList`, its own
`data-question-id` value (`none` when the attribute is absent), the
`data-question-id` of the first descendant carrying one, and its sibling
index (jQuery `.index()`). -/
structure ListItemEl where
  reviewTarget : Bool
  visible : Bool
  inQuestionList : Bool
  dataQid : Option JVal
  descQid : Option JVal
  idx : Nat
deriving Repr, DecidableEq

/-- The document's `.wpProQuiz_listItem` elements, in document order. -/
abbrev QuizDom := List ListItemEl

/-- Selector `.wpProQuiz_listItem.wpProQuiz_reviewQuestionTarget`. -/
def sel1 (e : ListItemEl) : Bool := e.reviewTarget

/-- Selector `.wpProQuiz_listItem:visible`. -/
def sel2 (e : ListItemEl) : Bool := e.visible

/-- Selector `.wpProQuiz_questionList .wpProQuiz_listItem`. -/
def sel3 (e : ListItemEl) : Bool := e.inQuestionList

/-- The element the `for (const selector of selectors)` loop settles on: the
first element matched by the first selector with a non-empty match. -/
def firstMatch (dom : QuizDom) : Option ListItemEl :=
  match dom.find? sel1 with
  | some e => some e
  | none =>
      match dom.find? sel2 with
      | some e => some e
      | none => dom.find? sel3

/-- The identifier chain
`$question.data('question-id') || $question.find('[data-question-id]').data('question-id') || $question.index() + 1`. -/
def resolveId (e : ListItemEl) : JVal :=
  jsOrV e.dataQid (jsOrV e.descQid (.num (e.idx + 1)))

/-- `getCurrentQuestionId()`: probe the three selectors in order and resolve
the matched element's identifier; `null` when every selector comes up
empty. -/
def getCurrentQuestionId (dom : QuizDom) : Option JVal :=
  (firstMatch dom).map resolveId

/-! ## Media fetcher (`loadQuestionMedia`) -/

/-- The host-page globals `lilacQuizSidebar.ajaxUrl` / `lilacQuizSidebar.nonce`. -/
structure AjaxConfig where
  ajaxUrl : String
  nonce : String
deriving Repr, DecidableEq

/-- The POST request `loadQuestionMedia` builds: the endpoint URL and the
`FormData` fields `action`, `question_id`, `nonce`. -/
structure MediaRequest where
  url : String
  action : String
  questionId : Nat
  nonce : String
deriving Repr, DecidableEq

/-- What the fetch promise chain delivers: a parsed JSON body
(`success` flag and, when present and truthy, `data.media`), or a
network/parse failure that lands in `.catch`. -/
inductive FetchResult where
  | response (success : Bool) (media : Option MediaData)
  | networkError
deriving Repr, DecidableEq

/-- The render call the fetch path issues. -/
inductive RenderCall where
  | media (md : MediaData)
  | fallback
deriving Repr, DecidableEq

/-- The observable outcome of one `loadQuestionMedia` call: the network
request issued (if any), the cache afterwards, and the render call made
(if any). -/
structure LoadOutcome where
  request : Option MediaRequest
  cache : Cache
  render : Option RenderCall
deriving Repr, DecidableEq

/-- The `.then`/`.catch` chain of `loadQuestionMedia` once a request has been
issued: on `data.success && data.data.media` cache and display the payload,
otherwise (including the thrown-and-caught path where `data.data` is
absent, which `.catch` also routes to the fallback) display the fallback. -/
def mediaResponseStep (cache : Cache) (questionId : Nat) (now : Nat)
    (result : FetchResult) : Cache × RenderCall :=
  match result with
  | .networkError => (cache, .fallback)
  | .response success media =>
      if success then
        match media with
        | some md => (cacheMedia cache questionId md now, .media md)
        | none => (cache, .fallback)
      else
        (cache, .fallback)

/-- The request `loadQuestionMedia` posts: the `FormData` fields appended to
`lilacQuizSidebar.ajaxUrl`. -/
def mediaRequestFor (cfg : AjaxConfig) (questionId : Nat) : MediaRequest :=
  { url := cfg.ajaxUrl, action := "get_question_acf_media",
    questionId := questionId, nonce := cfg.nonce }

/-- `loadQuestionMedia(questionId, force)`: no-op on a falsy id (modelled as
`0`); otherwise, unless `force`, consult the cache and render a fresh hit
without fetching; on miss or `force`, issue the request (carrying
`action = 'get_question_acf_media'`, the question id and the nonce to
`lilacQuizSidebar.ajaxUrl`) and handle the response. `result` is the
environment's answer to that request (unused when no request is made). -/
def loadQuestionMedia (cfg : AjaxConfig) (cache : Cache) (questionId : Nat)
    (force : Bool) (now : Nat) (result : FetchResult) : LoadOutcome :=
  if questionId = 0 then
    { request := none, cache := cache, render := none }
  else
    let fetchPath : Cache → LoadOutcome := fun c =>
      let (c', call) := mediaResponseStep c questionId now result
      { request := some (mediaRequestFor cfg questionId), cache := c',
        render := some call }
    if force then
      fetchPath cache
    else
      match getCachedMedia cache questionId now with
      | (some cached, c') =>
          { request := none, cache := c', render := some (.media cached) }
      | (none, c') => fetchPath c'

/-! ## Answer watcher (`checkAnswerAndEnforceHint` / the MutationObserver) -/

/-- A `MutationObserver` handle: `connected` is cleared by `disconnect()`. -/
structure Observer where
  connected : Bool
deriving Repr, DecidableEq

/-- One `MutationRecord` delivered to the callback. The observer is attached
to a single wrapper with `attributeFilter: ['class']`, so the record's
target is that wrapper; the record carries its `type` and
`attributeName`, which the callback re-checks. -/
structure MRecord where
  isAttributes : Bool
  attrName : String
deriving Repr, DecidableEq

/-- The live DOM facts the callback reads: the wrapper's current class list
(`hasClass` is evaluated on the live element, not on the record) and
whether the question has a `.wpProQuiz_tip` hint button
(`showHintRequirement` is a no-op without one). -/
structure WatchCtx where
  hasIncorrectClass : Bool
  hasCorrectClass : Bool
  hasHintButton : Bool
deriving Repr, DecidableEq

/-- Counters for the externally visible actions of the watcher's handlers. -/
structure Actions where
  disableNav : Nat
  showHint : Nat
  markCorrect : Nat
  enableNav : Nat
deriving Repr, DecidableEq

/-- `handleIncorrectAnswer`: disable all `.wpProQuiz_button` controls, then
`showHintRequirement` (which displays the hint only when the hint button
exists). -/
def handleIncorrectAnswer (ctx : WatchCtx) (a : Actions) : Actions :=
  { a with
    disableNav := a.disableNav + 1,
    showHint := a.showHint + (if ctx.hasHintButton then 1 else 0) }

/-- `handleCorrectAnswer`: mark the wrapper and re-enable navigation. -/
def handleCorrectAnswer (a : Actions) : Actions :=
  { a with markCorrect := a.markCorrect + 1, enableNav := a.enableNav + 1 }

/-- Whether a record passes the callback's
`mutation.type === 'attributes' && mutation.attributeName === 'class'` test. -/
def mrQualifies (r : MRecord) : Bool :=
  r.isAttributes && r.attrName == "class"

/-- The observer callback body: `mutations.forEach(...)`. Note that
`observer.disconnect()` does not stop the `forEach`; remaining records of
the same batch are still processed. -/
def observerCallback (ctx : WatchCtx) (records : List MRecord)
    (st : Observer × Actions) : Observer × Actions :=
  records.foldl
    (fun st r =>
      if mrQualifies r then
        if ctx.hasIncorrectClass then
          ({ connected := false }, handleIncorrectAnswer ctx st.2)
        else if ctx.hasCorrectClass then
          ({ connected := false }, handleCorrectAnswer st.2)
        else st
      else st)
    st

/-- Delivery of one mutation batch: the browser invokes the callback only
while the observer is connected (`disconnect` also discards any queued
records). -/
def deliverBatch (ctx : WatchCtx) (records : List MRecord)
    (st : Observer × Actions) : Observer × Actions :=
  if st.1.connected then observerCallback ctx records st else st

/-- The number of records of a batch passing the type/attribute test. -/
def countQualifying (records : List MRecord) : Nat :=
  (records.filter mrQualifies).length

/-! ## Navigation handler (`setupQuestionNavigation`'s debounced body) -/

/-- The body of the debounced `'navigation'` callback: read the current
question id; when it is truthy and differs (`!==`) from
`state.currentQuestion`, record it and reload media. Returns the new
`state.currentQuestion` and the argument of the `loadQuestionMedia` call,
if one is made. -/
def navigationHandler (dom : QuizDom) (currentQuestion : Option JVal) :
    Option JVal × Option JVal :=
  match getCurrentQuestionId dom with
  | some v =>
      if truthy v ∧ some v ≠ currentQuestion then (some v, some v)
      else (currentQuestion, none)
  | none => (currentQuestion, none)

/-! ## Debouncer and timer system (`debounce`, `cleanup`)

`setTimeout`/`clearTimeout` are embedded as an explicit timer table: every
timer ever created is a `Timer` whose position in `SysState.timers` is its
id; `state.debounceTimers` is the association list `dmap` from debounce key
to timer id. Time passage fires every pending timer whose deadline has been
reached (a fired debounce timer runs its closure `func(); delete(key)`).
The script keys timers by strings (`'navigation'`, `'answer-check-' + i`);
keys are embedded as `Nat` codes, which loses nothing since only key
(in)equality is ever used. Actions (the `func` closures) are likewise
represented by `Nat` codes; `firedActs` records which closures ran, in
order. -/

/-- A timer's lifecycle: pending, cancelled by `clearTimeout`, or fired. -/
inductive TStatus where
  | pend
  | cancelled
  | fired
deriving Repr, DecidableEq

/-- One `setTimeout` registration made by `debounce`: its key, absolute
deadline, closure code, and status. -/
structure Timer where
  key : Nat
  deadline : Nat
  act : Nat
  status : TStatus
deriving Repr, DecidableEq

/-- The module state `state`: the timer table plus `debounceTimers`,
the log of closures that ran, `observers`, and `mediaCache`. -/
structure SysState where
  timers : List Timer
  dmap : List (Nat × Nat)
  firedActs : List Nat
  observers : List Observer
  mediaCache : Cache
deriving Repr, DecidableEq

/-- `Map.get` on `debounceTimers`. -/
def lookupD : List (Nat × Nat) → Nat → Option Nat
  | [], _ => none
  | p :: rest, k => if p.1 = k then some p.2 else lookupD rest k

/-- Whether a timer is due at `now`: still pending, deadline reached. -/
def dueB (now : Nat) (t : Timer) : Bool :=
  t.status == .pend && decide (t.deadline ≤ now)

/-- Time passage to `now`: every due timer fires. A firing debounce timer
runs `func()` (logged in `firedActs`) and then
`state.debounceTimers.delete(key)`. Firing is simultaneous: no closure
creates or cancels timers, so the due set is fixed before any fires. -/
def fireDue (now : Nat) (s : SysState) : SysState :=
  let dueKeys := (s.timers.filter (dueB now)).map Timer.key
  { s with
    timers := s.timers.map
      (fun t => if dueB now t then { t with status := .fired } else t),
    dmap := s.dmap.filter (fun p => !(dueKeys.contains p.1)),
    firedActs := s.firedActs ++ (s.timers.filter (dueB now)).map Timer.act }

/-- `clearTimeout` on the timer with id `i` (no-op on an out-of-range id). -/
def cancelTimerAt (ts : List Timer) (i : Nat) : List Timer :=
  match ts[i]? with
  | some t => ts.set i { t with status := .cancelled }
  | none => ts

/-- `debounce(key, func, delay)` called at time `now`: the event loop has
first fired whatever was due; then, if `debounceTimers` holds a timer
under `key`, `clearTimeout` it; finally register a fresh timer under
`key` with deadline `now + delay` (`Map.set` overwrites the binding). -/
def debounce (s : SysState) (key act delay now : Nat) : SysState :=
  let s1 := fireDue now s
  let s2 :=
    match lookupD s1.dmap key with
    | some tid => { s1 with timers := cancelTimerAt s1.timers tid }
    | none => s1
  { s2 with
    timers := s2.timers ++
      [{ key := key, deadline := now + delay, act := act, status := .pend }],
    dmap := (key, s2.timers.length) :: s2.dmap.filter (fun p => p.1 != key) }

/-- An event of the single-threaded timeline: a `debounce` call, or bare
time passage (the event loop reaching `time` with nothing else to run). -/
inductive QEvent where
  | sched (key act delay time : Nat)
  | tick (time : Nat)
deriving Repr, DecidableEq

/-- One event of the timeline. -/
def stepEv (s : SysState) : QEvent → SysState
  | .sched key act delay time => debounce s key act delay time
  | .tick time => fireDue time s

/-- The module state right after the IIFE runs: everything empty. -/
def startState : SysState :=
  { timers := [], dmap := [], firedActs := [], observers := [],
    mediaCache := [] }

/-- Run a timeline from the start state. -/
def runEvents (evs : List QEvent) : SysState :=
  evs.foldl stepEv startState

/-- `cleanup()`: `clearTimeout` every timer referenced by `debounceTimers`
and clear the map; `disconnect()` every stored observer and drop the
list; clear the media cache. The second component returns the observer
objects as the disconnect loop leaves them (they survive outside
`state.observers`). -/
def cleanup (s : SysState) : SysState × List Observer :=
  ({ timers := s.dmap.foldl (fun ts p => cancelTimerAt ts p.2) s.timers,
     dmap := [],
     firedActs := s.firedActs,
     observers := [],
     mediaCache := [] },
   s.observers.map (fun _ => { connected := false }))

/-! ### The debouncer invariant

`dmap` binds each key at most once, every binding points at a pending timer
carrying that key, and every pending timer is bound under its key.
Together: at most one pending timer per key, and `cleanup` reaches every
pending timer through `dmap`. -/

/-- A `dmap` binding points into the table at a pending timer of its key. -/
def entryOkB (s : SysState) (p : Nat × Nat) : Bool :=
  match s.timers[p.2]? with
  | some t => t.key == p.1 && t.status == .pend
  | none => false

/-- Table slot `i`, if pending, is bound in `dmap` under its key. -/
def timerRegisteredB (s : SysState) (i : Nat) : Bool :=
  match s.timers[i]? with
  | some t => !(t.status == .pend) || s.dmap.contains (t.key, i)
  | none => true

/-- The debouncer invariant. -/
def Inv (s : SysState) : Prop :=
  (s.dmap.map Prod.fst).Nodup ∧
  (∀ p ∈ s.dmap, entryOkB s p = true) ∧
  (∀ i ∈ List.range s.timers.length, timerRegisteredB s i = true)

instance decidableInv (s : SysState) : Decidable (Inv s) := by
  unfold Inv; infer_instance

/-- A burst of `debounce` calls, all under one key: the call at time `t`
passes closure code `act0`, the next `act0 + 1`, and so on (the codes
record which call's closure a later firing would run). -/
def burstFrom (key delay act0 : Nat) : List Nat → List QEvent
  | [] => []
  | t :: rest => .sched key act0 delay t :: burstFrom key delay (act0 + 1) rest

/-- A burst with closure codes starting at `0`. -/
def burstEvents (key delay : Nat) (times : List Nat) : List QEvent :=
  burstFrom key delay 0 times

/-- The state shape a same-key burst maintains: nothing has fired, every
timer but the most recent is cancelled, the most recent (under `key`,
with the given deadline and closure code) is pending, and `dmap` binds
`key` to it. -/
def CleanSingle (s : SysState) (key deadline act : Nat) : Prop :=
  s.firedActs = [] ∧
  s.dmap = [(key, s.timers.length - 1)] ∧
  ∃ pre,
    s.timers = pre ++ [⟨key, deadline, act, .pend⟩] ∧
    ∀ t ∈ pre, t.status = TStatus.cancelled

/-! # Theorems -/

/-- **C1, counterexample.** The claim says a malformed payload (kind neither
`image` nor `video`) renders the fallback text and never an empty
container. In the code, `displayMedia` on such a payload appends an empty
fragment after clearing `innerHTML`: the container ends up empty — neither
one media element nor the fallback markup. -/
theorem displayMedia_unknown_type_empties_container :
    displayMedia ⟨"audio", "clip.mp3", none⟩ (some [.divNode "old" "old"]) =
      some ([] : List DomNode) ∧
    oneMediaOrFallback [] = false := by
  constructor
  · rfl
  · rfl

/-- **C1, amended.** `displayMedia` replaces the container's prior content
with exactly one `img` (url, `alt || 'Question media'`, lazy) for kind
`image`, exactly one `video` (controls, metadata preload) for kind
`video`, and with *nothing* for any other kind; the fallback markup
"No media available" is produced only by `displayFallbackMedia` (which the
fetch path invokes on failed or malformed responses), never by
`displayMedia` itself. -/
theorem displayMedia_render_cases (md : MediaData) (prior : List DomNode) :
    (md.type = "image" →
      displayMedia md (some prior) =
        some [.img md.url (jsOrS md.alt "Question media") true]) ∧
    (md.type = "video" →
      displayMedia md (some prior) = some [.video md.url true "metadata"]) ∧
    (md.type ≠ "image" → md.type ≠ "video" →
      displayMedia md (some prior) = some []) ∧
    displayFallbackMedia (some prior) = some fallbackMarkup := by
  refine ⟨?_, ?_, ?_, rfl⟩
  · intro h
    simp [displayMedia, buildMediaFragment, h]
  · intro h
    simp [displayMedia, buildMediaFragment, h]
  · intro h1 h2
    simp [displayMedia, buildMediaFragment, h1, h2]

/-- Witness for `displayMedia_render_cases` at an image payload. -/
theorem displayMedia_render_cases_witness :
    displayMedia ⟨"image", "u.png", none⟩ (some [.divNode "old" "old"]) =
      some [.img "u.png" "Question media" true] :=
  (displayMedia_render_cases ⟨"image", "u.png", none⟩
    [.divNode "old" "old"]).1 rfl

/-- **C3.** `put` then immediate `get` returns the stored payload; and for
any entry stored at `e.timestamp`, `get` at a later time returns the
payload while `now - storedAt < ttl` and otherwise evicts the entry
(the key is no longer in the map) and returns absent. -/
theorem cache_put_get_ttl (c : Cache) (k : Nat) (md : MediaData)
    (now later : Nat) :
    getCachedMedia (cacheMedia c k md now) k now =
      (some md, cacheMedia c k md now) ∧
    (∀ e : CacheEntry, lookupC c k = some e →
      (later - e.timestamp < config.cacheTimeout →
        getCachedMedia c k later = (some e.data, c)) ∧
      (config.cacheTimeout ≤ later - e.timestamp →
        getCachedMedia c k later = (none, eraseC c k) ∧
        lookupC (getCachedMedia c k later).2 k = none)) := by
  constructor
  · simp [getCachedMedia, cacheMedia, lookupC, config]
  · intro e he
    constructor
    · intro hlt
      simp [getCachedMedia, he, hlt]
    · intro hge
      have hnlt : ¬(later - e.timestamp < config.cacheTimeout) :=
        not_lt.mpr hge
      constructor
      · simp [getCachedMedia, he, hnlt]
      · simp [getCachedMedia, he, hnlt, lookupC_eraseC_self]

/-- Witness for `cache_put_get_ttl`: store at `t = 100`, read back at
`t = 100` (hit) and at `t = 30200` (31 s later: evicted, absent). -/
theorem cache_put_get_ttl_witness :
    getCachedMedia (cacheMedia [] 7 ⟨"image", "u", none⟩ 100) 7 100 =
      (some ⟨"image", "u", none⟩, cacheMedia [] 7 ⟨"image", "u", none⟩ 100) ∧
    getCachedMedia (cacheMedia [] 7 ⟨"image", "u", none⟩ 100) 7 30200 =
      (none, eraseC (cacheMedia [] 7 ⟨"image", "u", none⟩ 100) 7) := by
  refine ⟨(cache_put_get_ttl [] 7 ⟨"image", "u", none⟩ 100 100).1, ?_⟩
  have h := cache_put_get_ttl (cacheMedia [] 7 ⟨"image", "u", none⟩ 100) 7
    ⟨"image", "u", none⟩ 100 30200
  exact ((h.2 ⟨⟨"image", "u", none⟩, 100⟩ (by decide)).2 (by decide)).1

/-- **C5.** With `forceRefresh` false and a fresh cached entry,
`loadQuestionMedia` renders the cached payload and issues no request;
with `forceRefresh` true it always issues the request carrying the
question id and the host nonce to the configured endpoint, whatever the
cache holds. -/
theorem loadQuestionMedia_cache_hit_and_force (cfg : AjaxConfig)
    (cache : Cache) (qid now : Nat) (result : FetchResult) :
    (∀ e : CacheEntry, qid ≠ 0 → lookupC cache qid = some e →
      now - e.timestamp < config.cacheTimeout →
      loadQuestionMedia cfg cache qid false now result =
        { request := none, cache := cache, render := some (.media e.data) }) ∧
    (qid ≠ 0 →
      (loadQuestionMedia cfg cache qid true now result).request =
        some (mediaRequestFor cfg qid)) := by
  constructor
  · intro e h0 he hfresh
    simp [loadQuestionMedia, h0, getCachedMedia, he, hfresh]
  · intro h0
    cases result with
    | networkError => simp [loadQuestionMedia, h0, mediaResponseStep]
    | response ok media =>
        cases ok <;> cases media <;>
          simp [loadQuestionMedia, h0, mediaResponseStep]

/-- Witness for `loadQuestionMedia_cache_hit_and_force`: a fresh entry for
question `7` renders from cache without a request; forcing refreshes
through the endpoint. -/
theorem loadQuestionMedia_cache_hit_and_force_witness :
    loadQuestionMedia ⟨"https://e/ajax", "n0"⟩
        (cacheMedia [] 7 ⟨"image", "u", none⟩ 0) 7 false 10 .networkError =
      { request := none, cache := cacheMedia [] 7 ⟨"image", "u", none⟩ 0,
        render := some (.media ⟨"image", "u", none⟩) } ∧
    (loadQuestionMedia ⟨"https://e/ajax", "n0"⟩
        (cacheMedia [] 7 ⟨"image", "u", none⟩ 0) 7 true 10
        .networkError).request =
      some (mediaRequestFor ⟨"https://e/ajax", "n0"⟩ 7) := by
  have h := loadQuestionMedia_cache_hit_and_force ⟨"https://e/ajax", "n0"⟩
    (cacheMedia [] 7 ⟨"image", "u", none⟩ 0) 7 10 .networkError
  exact ⟨h.1 ⟨⟨"image", "u", none⟩, 0⟩ (by decide) (by decide) (by decide),
    h.2 (by decide)⟩

/-- **C6.** Once the request is issued, a transport/parse failure, a
`success: false` response, or a successful response with no media all
render the fallback and leave the cache unchanged; only a well-formed
successful payload is stored in the cache and rendered. (The model is a
total function: every response shape lands in one of these arms, so
nothing escapes to the caller.) -/
theorem loadQuestionMedia_response_handling (cfg : AjaxConfig)
    (cache : Cache) (qid now : Nat) (h0 : qid ≠ 0) :
    (loadQuestionMedia cfg cache qid true now .networkError =
      { request := some (mediaRequestFor cfg qid), cache := cache,
        render := some .fallback }) ∧
    (∀ m, loadQuestionMedia cfg cache qid true now (.response false m) =
      { request := some (mediaRequestFor cfg qid), cache := cache,
        render := some .fallback }) ∧
    (loadQuestionMedia cfg cache qid true now (.response true none) =
      { request := some (mediaRequestFor cfg qid), cache := cache,
        render := some .fallback }) ∧
    (∀ md, loadQuestionMedia cfg cache qid true now
        (.response true (some md)) =
      { request := some (mediaRequestFor cfg qid),
        cache := cacheMedia cache qid md now,
        render := some (.media md) }) := by
  refine ⟨?_, ?_, ?_, ?_⟩
  · simp [loadQuestionMedia, mediaResponseStep, h0]
  · intro m
    simp [loadQuestionMedia, mediaResponseStep, h0]
  · simp [loadQuestionMedia, mediaResponseStep, h0]
  · intro md
    simp [loadQuestionMedia, mediaResponseStep, h0]

/-- Witness for `loadQuestionMedia_response_handling` at question `3`:
a failed transport renders the fallback; a well-formed payload is cached
and rendered. -/
theorem loadQuestionMedia_response_handling_witness :
    loadQuestionMedia ⟨"https://e/ajax", "n0"⟩ [] 3 true 5 .networkError =
      { request := some (mediaRequestFor ⟨"https://e/ajax", "n0"⟩ 3),
        cache := [], render := some .fallback } ∧
    loadQuestionMedia ⟨"https://e/ajax", "n0"⟩ [] 3 true 5
        (.response true (some ⟨"video", "v", none⟩)) =
      { request := some (mediaRequestFor ⟨"https://e/ajax", "n0"⟩ 3),
        cache := cacheMedia [] 3 ⟨"video", "v", none⟩ 5,
        render := some (.media ⟨"video", "v", none⟩) } := by
  have h := loadQuestionMedia_response_handling ⟨"https://e/ajax", "n0"⟩
    [] 3 5 (by decide)
  exact ⟨h.1, h.2.2.2 ⟨"video", "v", none⟩⟩

/-- **C7.** `getCurrentQuestionId` probes the review-target, visible and
plain-list selectors in that priority order and resolves the first
match's identifier: a truthy `data-question-id` on the element, else a
truthy one on a descendant, else the 1-based sibling position
(`index() + 1`); it returns `null` when no list item exists, and — being
a pure function of the DOM — has no side effects. -/
theorem getCurrentQuestionId_contract (dom : QuizDom) :
    getCurrentQuestionId [] = none ∧
    (∀ e, dom.find? sel1 = some e →
      getCurrentQuestionId dom = some (resolveId e)) ∧
    (∀ e, dom.find? sel1 = none → dom.find? sel2 = some e →
      getCurrentQuestionId dom = some (resolveId e)) ∧
    (∀ e, dom.find? sel1 = none → dom.find? sel2 = none →
      dom.find? sel3 = some e →
      getCurrentQuestionId dom = some (resolveId e)) ∧
    (∀ (e : ListItemEl) (v : JVal), e.dataQid = some v → truthy v = true →
      resolveId e = v) ∧
    (∀ e : ListItemEl, e.dataQid = none → e.descQid = none →
      resolveId e = .num (e.idx + 1)) ∧
    (∀ (e : ListItemEl) (v : JVal), e.dataQid = none → e.descQid = some v →
      truthy v = true → resolveId e = v) := by
  refine ⟨rfl, ?_, ?_, ?_, ?_, ?_, ?_⟩
  · intro e h
    simp [getCurrentQuestionId, firstMatch, h]
  · intro e h1 h2
    simp [getCurrentQuestionId, firstMatch, h1, h2]
  · intro e h1 h2 h3
    simp [getCurrentQuestionId, firstMatch, h1, h2, h3]
  · intro e v h ht
    simp [resolveId, jsOrV, h, ht]
  · intro e h1 h2
    simp [resolveId, jsOrV, h1, h2]
  · intro e v h1 h2 ht
    simp [resolveId, jsOrV, h1, h2, ht]

/-- Witness for `getCurrentQuestionId_contract`: a DOM holding one plain
visible list item at sibling index 2 with no id attribute resolves to the
1-based position `3`; the empty DOM resolves to `null`. -/
theorem getCurrentQuestionId_contract_witness :
    getCurrentQuestionId [⟨false, true, true, none, none, 2⟩] =
      some (.num 3) ∧
    getCurrentQuestionId [] = none := by
  have h := getCurrentQuestionId_contract [⟨false, true, true, none, none, 2⟩]
  have h2 := h.2.2.1 ⟨false, true, true, none, none, 2⟩ rfl rfl
  exact ⟨h2, h.1⟩

/-- **C9.** A falsy explicit `data-question-id` (the number `0`, the empty
string) is skipped by the `||` chain exactly as an absent one: the
resolver falls through to the descendant lookup and then to the 1-based
positional fallback, so a falsy explicit id is indistinguishable from an
absent one. -/
theorem resolveId_falsy_data_attribute (dom : QuizDom) (e : ListItemEl)
    (v : JVal) (hv : e.dataQid = some v) (hf : truthy v = false) :
    resolveId e = resolveId { e with dataQid := none } ∧
    resolveId e = jsOrV e.descQid (.num (e.idx + 1)) ∧
    (firstMatch dom = some e →
      getCurrentQuestionId dom =
        some (jsOrV e.descQid (.num (e.idx + 1)))) := by
  refine ⟨?_, ?_, ?_⟩
  · simp [resolveId, jsOrV, hv, hf]
  · simp [resolveId, jsOrV, hv, hf]
  · intro hm
    simp [getCurrentQuestionId, hm, resolveId, jsOrV, hv, hf]

/-- Witness for `resolveId_falsy_data_attribute`: an item at sibling index 2
whose explicit id attribute is the falsy number `0` resolves to the
positional fallback `3`. -/
theorem resolveId_falsy_data_attribute_witness :
    getCurrentQuestionId [⟨false, true, true, some (.num 0), none, 2⟩] =
      some (.num 3) := by
  have h := resolveId_falsy_data_attribute
    [⟨false, true, true, some (.num 0), none, 2⟩]
    ⟨false, true, true, some (.num 0), none, 2⟩ (.num 0) rfl rfl
  exact h.2.2 rfl

/-- **C10.** The debounced navigation callback reloads media only for a
truthy id that differs (`!==`) from `state.currentQuestion`: when the
locator reports the id already stored, no `loadQuestionMedia` call is
made and the stored state is unchanged; the same holds for a falsy id. -/
theorem navigationHandler_same_id_noop (dom : QuizDom)
    (cur : Option JVal) :
    (getCurrentQuestionId dom = cur →
      navigationHandler dom cur = (cur, none)) ∧
    (∀ v, getCurrentQuestionId dom = some v → truthy v = false →
      navigationHandler dom cur = (cur, none)) ∧
    (∀ v, getCurrentQuestionId dom = some v → truthy v = true →
      some v ≠ cur → navigationHandler dom cur = (some v, some v)) := by
  refine ⟨?_, ?_, ?_⟩
  · intro h
    unfold navigationHandler
    rw [h]
    cases cur with
    | none => rfl
    | some v => simp
  · intro v h hf
    unfold navigationHandler
    rw [h]
    simp [hf]
  · intro v h ht hne
    unfold navigationHandler
    rw [h]
    simp [ht, hne]

/-- Witness for `navigationHandler_same_id_noop`: with question `3` current
and the locator reporting `3`, nothing is reloaded; from a fresh state
(`currentQuestion = null`) the same DOM triggers one reload of `3`. -/
theorem navigationHandler_same_id_noop_witness :
    navigationHandler [⟨false, true, true, none, none, 2⟩]
      (some (.num 3)) = (some (.num 3), none) ∧
    navigationHandler [⟨false, true, true, none, none, 2⟩] none =
      (some (.num 3), some (.num 3)) := by
  refine ⟨?_, ?_⟩
  · exact (navigationHandler_same_id_noop
      [⟨false, true, true, none, none, 2⟩] (some (.num 3))).1 rfl
  · exact (navigationHandler_same_id_noop
      [⟨false, true, true, none, none, 2⟩] none).2.2 (.num 3) rfl rfl
      (by decide)

/-- **C2, counterexample.** The claim says the triggering mutation fires the
incorrect-answer handlers exactly once even when it arrives in a batch of
several qualifying records. The callback's `forEach` is not stopped by
`observer.disconnect()`: a batch of two qualifying class-attribute
records on a wrapper carrying the incorrect marker runs
`handleIncorrectAnswer` twice — two disable-navigation and two
hint-display actions, not one. -/
theorem watcher_batch_double_fire :
    deliverBatch ⟨true, false, true⟩
      [⟨true, "class"⟩, ⟨true, "class"⟩] (⟨true⟩, ⟨0, 0, 0, 0⟩) =
      (⟨false⟩, ⟨2, 2, 0, 0⟩) ∧ (2 : Nat) ≠ 1 := by
  constructor
  · rfl
  · decide

/-- Counting helper for the amended watcher claim: the callback body runs
the incorrect-answer handlers once per qualifying record of the batch,
and leaves the observer disconnected as soon as one record qualifies. -/
theorem observerCallback_incorrect (ctx : WatchCtx) (records : List MRecord)
    (hI : ctx.hasIncorrectClass = true) :
    ∀ (o : Observer) (a : Actions),
      ((observerCallback ctx records (o, a)).2.disableNav =
        a.disableNav + countQualifying records) ∧
      ((observerCallback ctx records (o, a)).2.showHint =
        a.showHint +
          (if ctx.hasHintButton then countQualifying records else 0)) ∧
      ((observerCallback ctx records (o, a)).1.connected =
        if countQualifying records = 0 then o.connected else false) := by
  induction records with
  | nil =>
      intro o a
      simp [observerCallback, countQualifying]
  | cons r rest ih =>
      intro o a
      by_cases hq : mrQualifies r = true
      · have hc : countQualifying (r :: rest) = countQualifying rest + 1 := by
          simp [countQualifying, List.filter_cons, hq]
        have hstep : observerCallback ctx (r :: rest) (o, a) =
            observerCallback ctx rest (⟨false⟩, handleIncorrectAnswer ctx a) := by
          simp [observerCallback, List.foldl_cons, hq, hI]
        rw [hstep]
        obtain ⟨h1, h2, h3⟩ := ih ⟨false⟩ (handleIncorrectAnswer ctx a)
        refine ⟨?_, ?_, ?_⟩
        · rw [h1, hc]
          simp [handleIncorrectAnswer]
          omega
        · rw [h2, hc]
          cases hb : ctx.hasHintButton
          · simp [handleIncorrectAnswer, hb]
          · simp [handleIncorrectAnswer, hb]
            omega
        · rw [h3, hc]
          simp
      · have hq' : mrQualifies r = false := by
          simpa using hq
        have hc : countQualifying (r :: rest) = countQualifying rest := by
          simp [countQualifying, List.filter_cons, hq']
        have hstep : observerCallback ctx (r :: rest) (o, a) =
            observerCallback ctx rest (o, a) := by
          simp [observerCallback, List.foldl_cons, hq']
        rw [hstep, hc]
        exact ih o a

/-- **C2, amended.** On an armed (connected) watcher whose wrapper carries
the incorrect marker, delivering a batch runs one disable-navigation and
one hint-display action *per qualifying record* of that batch — exactly
one each when the batch holds a single qualifying record — and detaches
the watch as soon as one record qualifies; a detached watcher never
reacts to a later batch. -/
theorem watcher_first_batch_resolves (ctx : WatchCtx)
    (records : List MRecord) (a : Actions)
    (hI : ctx.hasIncorrectClass = true) :
    ((deliverBatch ctx records (⟨true⟩, a)).2.disableNav =
      a.disableNav + countQualifying records) ∧
    ((deliverBatch ctx records (⟨true⟩, a)).2.showHint =
      a.showHint +
        (if ctx.hasHintButton then countQualifying records else 0)) ∧
    (1 ≤ countQualifying records →
      (deliverBatch ctx records (⟨true⟩, a)).1.connected = false) ∧
    (∀ st : Observer × Actions, st.1.connected = false →
      deliverBatch ctx records st = st) := by
  have h := observerCallback_incorrect ctx records hI ⟨true⟩ a
  have hd : deliverBatch ctx records (⟨true⟩, a) =
      observerCallback ctx records (⟨true⟩, a) := by
    simp [deliverBatch]
  refine ⟨?_, ?_, ?_, ?_⟩
  · rw [hd]; exact h.1
  · rw [hd]; exact h.2.1
  · intro h1
    rw [hd, h.2.2]
    have hne : countQualifying records ≠ 0 := by omega
    simp [hne]
  · intro st hst
    simp [deliverBatch, hst]

/-- Witness for `watcher_first_batch_resolves`: a single qualifying record
on a wrapper with the incorrect marker and a hint button present fires
one disable-navigation and one hint-display action, detaches the watch,
and a detached watcher ignores a later batch. -/
theorem watcher_first_batch_resolves_witness :
    (deliverBatch ⟨true, false, true⟩ [⟨true, "class"⟩]
      (⟨true⟩, ⟨0, 0, 0, 0⟩)).2.disableNav = 1 ∧
    (deliverBatch ⟨true, false, true⟩ [⟨true, "class"⟩]
      (⟨true⟩, ⟨0, 0, 0, 0⟩)).2.showHint = 1 ∧
    (deliverBatch ⟨true, false, true⟩ [⟨true, "class"⟩]
      (⟨true⟩, ⟨0, 0, 0, 0⟩)).1.connected = false ∧
    deliverBatch ⟨true, false, true⟩ [⟨true, "class"⟩]
      (⟨false⟩, ⟨1, 1, 0, 0⟩) = (⟨false⟩, ⟨1, 1, 0, 0⟩) := by
  have h := watcher_first_batch_resolves ⟨true, false, true⟩
    [⟨true, "class"⟩] ⟨0, 0, 0, 0⟩ rfl
  refine ⟨?_, ?_, h.2.2.1 (by decide), h.2.2.2 (⟨false⟩, ⟨1, 1, 0, 0⟩) rfl⟩
  · simpa using h.1
  · simpa using h.2.1

/-! ### Debouncer invariant machinery -/

theorem lookupD_eq_some_mem :
    ∀ {l : List (Nat × Nat)} {k v : Nat},
      lookupD l k = some v → (k, v) ∈ l := by
  intro l
  induction l with
  | nil => intro k v h; cases h
  | cons p rest ih =>
      intro k v h
      obtain ⟨a, b⟩ := p
      by_cases hp : a = k
      · simp [lookupD, hp] at h
        subst hp
        subst h
        exact List.mem_cons_self _ _
      · simp [lookupD, hp] at h
        exact List.mem_cons_of_mem _ (ih h)

theorem mem_lookupD_isSome :
    ∀ {l : List (Nat × Nat)} {k v : Nat},
      (k, v) ∈ l → (lookupD l k).isSome := by
  intro l
  induction l with
  | nil => intro k v h; cases h
  | cons p rest ih =>
      intro k v h
      obtain ⟨a, b⟩ := p
      by_cases hp : a = k
      · simp [lookupD, hp]
      · rcases List.mem_cons.mp h with he | hm
        · simp at he
          exact absurd he.1.symm hp
        · simp only [lookupD, hp, if_false, ite_false]
          exact ih hm

theorem entryOkB_eq_true_iff {s : SysState} {p : Nat × Nat} :
    entryOkB s p = true ↔
      ∃ t, s.timers[p.2]? = some t ∧ t.key = p.1 ∧ t.status = .pend := by
  unfold entryOkB
  cases h : s.timers[p.2]? with
  | none => simp
  | some t => simp [h]

theorem timerRegisteredB_eq_true_iff {s : SysState} {i : Nat} :
    timerRegisteredB s i = true ↔
      ∀ t, s.timers[i]? = some t → t.status = .pend →
        (t.key, i) ∈ s.dmap := by
  unfold timerRegisteredB
  cases h : s.timers[i]? with
  | none => simp
  | some t =>
      simp only [h, Bool.or_eq_true, Bool.not_eq_true', beq_eq_false_iff_ne,
        ne_eq, Option.some.injEq]
      constructor
      · rintro (hne | hc) u rfl hp
        · exact absurd hp hne
        · have : List.elem (t.key, i) s.dmap = true := hc
          exact List.elem_iff.mp this
      · intro hall
        by_cases hp : t.status = TStatus.pend
        · right
          have : (t.key, i) ∈ s.dmap := hall t rfl hp
          exact List.elem_iff.mpr this
        · left
          exact hp

theorem inv_dmap_sound {s : SysState} (h : Inv s) {k i : Nat}
    (hm : (k, i) ∈ s.dmap) :
    ∃ t, s.timers[i]? = some t ∧ t.key = k ∧ t.status = .pend :=
  entryOkB_eq_true_iff.mp (h.2.1 (k, i) hm)

theorem inv_pend_mem_dmap {s : SysState} (h : Inv s) {i : Nat} {t : Timer}
    (ht : s.timers[i]? = some t) (hp : t.status = .pend) :
    (t.key, i) ∈ s.dmap := by
  obtain ⟨hi, -⟩ := List.getElem?_eq_some.mp ht
  exact (timerRegisteredB_eq_true_iff.mp
    (h.2.2 i (List.mem_range.mpr hi))) t ht hp

theorem nodup_keys_eq {l : List (Nat × Nat)}
    (h : (l.map Prod.fst).Nodup) {k i j : Nat}
    (h1 : (k, i) ∈ l) (h2 : (k, j) ∈ l) : i = j := by
  induction l with
  | nil => cases h1
  | cons p rest ih =>
      rw [List.map_cons, List.nodup_cons] at h
      rcases List.mem_cons.mp h1 with e1 | m1 <;>
        rcases List.mem_cons.mp h2 with e2 | m2
      · have := e1.trans e2.symm
        simpa using this
      · exfalso
        apply h.1
        have hp1 : p.1 = k := by rw [← e1]
        rw [hp1]
        exact List.mem_map.mpr ⟨(k, j), m2, rfl⟩
      · exfalso
        apply h.1
        have hp1 : p.1 = k := by rw [← e2]
        rw [hp1]
        exact List.mem_map.mpr ⟨(k, i), m1, rfl⟩
      · exact ih h.2 m1 m2

theorem inv_startState : Inv startState := by
  refine ⟨List.nodup_nil, ?_, ?_⟩ <;> intro x hx <;> cases hx

theorem fireDue_timers (now : Nat) (s : SysState) :
    (fireDue now s).timers = s.timers.map
      (fun t => if dueB now t then { t with status := .fired } else t) := rfl

theorem fireDue_dmap (now : Nat) (s : SysState) :
    (fireDue now s).dmap = s.dmap.filter
      (fun p =>
        !(((s.timers.filter (dueB now)).map Timer.key).contains p.1)) := rfl

theorem fireDue_firedActs (now : Nat) (s : SysState) :
    (fireDue now s).firedActs =
      s.firedActs ++ (s.timers.filter (dueB now)).map Timer.act := rfl

theorem dueB_pend {now : Nat} {t : Timer} (h : dueB now t = true) :
    t.status = .pend := by
  unfold dueB at h
  exact beq_iff_eq.mp ((Bool.and_eq_true _ _).mp h).1

theorem dueB_of_pend_le {now : Nat} {t : Timer} (hp : t.status = .pend)
    (hd : t.deadline ≤ now) : dueB now t = true := by
  unfold dueB
  rw [hp]
  simp [hd]

theorem contains_key_iff {l : List Nat} {a : Nat} :
    l.contains a = true ↔ a ∈ l := List.elem_iff

/-- Firing due timers preserves the debouncer invariant: the fired timers'
`dmap` bindings are dropped, every surviving binding still points at a
pending timer, and every still-pending timer keeps its binding (its key
cannot be among the fired keys: that would require a second pending timer
under the same key). -/
theorem inv_fireDue (now : Nat) {s : SysState} (h : Inv s) :
    Inv (fireDue now s) := by
  obtain ⟨hnd, hsound, hcomp⟩ := h
  refine ⟨?_, ?_, ?_⟩
  · rw [fireDue_dmap]
    exact List.Nodup.sublist
      (List.Sublist.map Prod.fst (List.filter_sublist s.dmap)) hnd
  · intro p hp
    rw [fireDue_dmap] at hp
    have hmem := List.mem_of_mem_filter hp
    have hg := List.of_mem_filter hp
    obtain ⟨t, ht, hkey, hpend⟩ := entryOkB_eq_true_iff.mp (hsound p hmem)
    rw [entryOkB_eq_true_iff]
    refine ⟨t, ?_, hkey, hpend⟩
    rw [fireDue_timers, List.getElem?_map, ht]
    have hndue : dueB now t = false := by
      cases hdue : dueB now t
      · rfl
      · exfalso
        have htm : t ∈ s.timers := List.getElem?_mem ht
        have hkmem : p.1 ∈ (s.timers.filter (dueB now)).map Timer.key :=
          List.mem_map.mpr ⟨t, List.mem_filter.mpr ⟨htm, hdue⟩, hkey⟩
        rw [Bool.not_eq_true'] at hg
        rw [contains_key_iff.mpr hkmem] at hg
        cases hg
    simp [hndue]
  · intro i hi
    rw [timerRegisteredB_eq_true_iff]
    intro t' ht' hp'
    rw [fireDue_timers, List.getElem?_map] at ht'
    cases ht0 : s.timers[i]? with
    | none =>
        rw [ht0] at ht'
        cases ht'
    | some t =>
        rw [ht0] at ht'
        have hft : (if dueB now t then { t with status := .fired } else t)
            = t' := Option.some.inj ht'
        have hndue : dueB now t = false := by
          cases hdue : dueB now t
          · rfl
          · exfalso
            rw [hdue, if_pos rfl] at hft
            rw [← hft] at hp'
            cases hp'
        rw [hndue] at hft
        simp at hft
        subst hft
        obtain ⟨hilt, -⟩ := List.getElem?_eq_some.mp ht0
        have hmem : (t.key, i) ∈ s.dmap :=
          (timerRegisteredB_eq_true_iff.mp
            (hcomp i (List.mem_range.mpr hilt))) t ht0 hp'
        rw [fireDue_dmap]
        apply List.mem_filter.mpr
        refine ⟨hmem, ?_⟩
        rw [Bool.not_eq_true']
        cases hc : ((s.timers.filter (dueB now)).map Timer.key).contains t.key
        · rfl
        · exfalso
          obtain ⟨u, hu_f, hu_key⟩ :=
            List.mem_map.mp (contains_key_iff.mp hc)
          have hu_mem : u ∈ s.timers := List.mem_of_mem_filter hu_f
          have hu_due : dueB now u = true := List.of_mem_filter hu_f
          obtain ⟨j, hj⟩ := List.mem_iff_getElem?.mp hu_mem
          obtain ⟨hjlt, -⟩ := List.getElem?_eq_some.mp hj
          have hmem_u : (u.key, j) ∈ s.dmap :=
            (timerRegisteredB_eq_true_iff.mp
              (hcomp j (List.mem_range.mpr hjlt))) u hj (dueB_pend hu_due)
          rw [hu_key] at hmem_u
          have hij : i = j := nodup_keys_eq hnd hmem hmem_u
          rw [← hij] at hj
          rw [ht0] at hj
          have : t = u := Option.some.inj hj
          rw [← this] at hu_due
          rw [hu_due] at hndue
          cases hndue

theorem cancelTimerAt_length (ts : List Timer) (j : Nat) :
    (cancelTimerAt ts j).length = ts.length := by
  unfold cancelTimerAt
  cases h : ts[j]? <;> simp

theorem cancelTimerAt_getElem? (ts : List Timer) (j i : Nat) :
    (cancelTimerAt ts j)[i]? =
      if j = i then
        (ts[i]?).map (fun t => { t with status := .cancelled })
      else ts[i]? := by
  unfold cancelTimerAt
  cases h : ts[j]? with
  | none =>
      by_cases hji : j = i
      · subst hji
        rw [if_pos rfl, h]
        rfl
      · rw [if_neg hji]
  | some t =>
      by_cases hji : j = i
      · subst hji
        rw [if_pos rfl, h]
        obtain ⟨hlt, -⟩ := List.getElem?_eq_some.mp h
        rw [List.getElem?_set_self hlt]
        rfl
      · rw [if_neg hji]
        exact List.getElem?_set_ne hji

theorem key_not_mem_filter_keys (l : List (Nat × Nat)) (key : Nat) :
    key ∉ (l.filter (fun p => p.1 != key)).map Prod.fst := by
  intro hmem
  obtain ⟨p, hp, hpk⟩ := List.mem_map.mp hmem
  have hq : (p.1 != key) = true := by
    simpa using List.of_mem_filter hp
  exact bne_iff_ne.mp hq hpk

/-- A `debounce` call preserves the debouncer invariant: the superseded
binding's timer is cancelled exactly when the binding is dropped, and the
fresh timer is pending exactly under the fresh binding. -/
theorem inv_debounce {s : SysState} (h : Inv s) (key act delay now : Nat) :
    Inv (debounce s key act delay now) := by
  obtain ⟨hnd1, hsound1, hcomp1⟩ := inv_fireDue now h
  cases hlk : lookupD (fireDue now s).dmap key with
  | some tid =>
      obtain ⟨t0, ht0, ht0key, ht0pend⟩ :=
        entryOkB_eq_true_iff.mp
          (hsound1 (key, tid) (lookupD_eq_some_mem hlk))
      have e : debounce s key act delay now =
          { timers := cancelTimerAt (fireDue now s).timers tid ++
              [⟨key, now + delay, act, .pend⟩],
            dmap := (key, (cancelTimerAt (fireDue now s).timers tid).length)
              :: (fireDue now s).dmap.filter (fun p => p.1 != key),
            firedActs := (fireDue now s).firedActs,
            observers := (fireDue now s).observers,
            mediaCache := (fireDue now s).mediaCache } := by
        simp only [debounce, hlk]
      rw [e]
      refine ⟨?_, ?_, ?_⟩
      · rw [List.map_cons, List.nodup_cons]
        exact ⟨key_not_mem_filter_keys _ key,
          List.Nodup.sublist
            (List.Sublist.map Prod.fst (List.filter_sublist _)) hnd1⟩
      · intro p hp
        rcases List.mem_cons.mp hp with rfl | hp'
        · rw [entryOkB_eq_true_iff]
          exact ⟨⟨key, now + delay, act, .pend⟩,
            List.getElem?_concat_length _ _, rfl, rfl⟩
        · have hmem := List.mem_of_mem_filter hp'
          have hq : (p.1 != key) = true := by
            simpa using List.of_mem_filter hp'
          have hne : p.1 ≠ key := bne_iff_ne.mp hq
          obtain ⟨t, ht, htkey, htpend⟩ :=
            entryOkB_eq_true_iff.mp (hsound1 p hmem)
          have hptid : tid ≠ p.2 := by
            intro heq
            rw [← heq] at ht
            rw [ht0] at ht
            have := Option.some.inj ht
            rw [← this] at htkey
            rw [ht0key] at htkey
            exact hne htkey.symm
          rw [entryOkB_eq_true_iff]
          refine ⟨t, ?_, htkey, htpend⟩
          obtain ⟨hlt, -⟩ := List.getElem?_eq_some.mp ht
          have hlt2 : p.2 < (cancelTimerAt (fireDue now s).timers tid).length := by
            rw [cancelTimerAt_length]
            exact hlt
          rw [List.getElem?_append_left hlt2, cancelTimerAt_getElem?,
            if_neg hptid]
          exact ht
      · intro i hi
        rw [timerRegisteredB_eq_true_iff]
        intro t' ht' hp'
        have hLen :
            (cancelTimerAt (fireDue now s).timers tid).length =
              (fireDue now s).timers.length := cancelTimerAt_length _ _
        by_cases hiL : i = (cancelTimerAt (fireDue now s).timers tid).length
        · subst hiL
          rw [List.getElem?_concat_length] at ht'
          have := Option.some.inj ht'
          rw [← this]
          exact List.mem_cons_self _ _
        · obtain ⟨hilt, -⟩ := List.getElem?_eq_some.mp ht'
          rw [List.length_append, List.length_singleton] at hilt
          have hiL' : i < (cancelTimerAt (fireDue now s).timers tid).length := by
            omega
          rw [List.getElem?_append_left hiL', cancelTimerAt_getElem?] at ht'
          by_cases htid : tid = i
          · exfalso
            rw [if_pos htid] at ht'
            cases hu : (fireDue now s).timers[i]? with
            | none =>
                rw [hu] at ht'
                cases ht'
            | some u =>
                rw [hu] at ht'
                have := Option.some.inj ht'
                rw [← this] at hp'
                cases hp'
          · rw [if_neg htid] at ht'
            have hmem : (t'.key, i) ∈ (fireDue now s).dmap :=
              (timerRegisteredB_eq_true_iff.mp
                (hcomp1 i (List.mem_range.mpr (by rw [← hLen] at *; omega)))) t' ht' hp'
            by_cases hkey : t'.key = key
            · exfalso
              rw [hkey] at hmem
              exact htid (nodup_keys_eq hnd1
                (lookupD_eq_some_mem hlk) hmem)
            · apply List.mem_cons_of_mem
              exact List.mem_filter.mpr
                ⟨hmem, by rw [bne_iff_ne]; exact hkey⟩
  | none =>
      have e : debounce s key act delay now =
          { timers := (fireDue now s).timers ++
              [⟨key, now + delay, act, .pend⟩],
            dmap := (key, (fireDue now s).timers.length)
              :: (fireDue now s).dmap.filter (fun p => p.1 != key),
            firedActs := (fireDue now s).firedActs,
            observers := (fireDue now s).observers,
            mediaCache := (fireDue now s).mediaCache } := by
        simp only [debounce, hlk]
      rw [e]
      refine ⟨?_, ?_, ?_⟩
      · rw [List.map_cons, List.nodup_cons]
        exact ⟨key_not_mem_filter_keys _ key,
          List.Nodup.sublist
            (List.Sublist.map Prod.fst (List.filter_sublist _)) hnd1⟩
      · intro p hp
        rcases List.mem_cons.mp hp with rfl | hp'
        · rw [entryOkB_eq_true_iff]
          exact ⟨⟨key, now + delay, act, .pend⟩,
            List.getElem?_concat_length _ _, rfl, rfl⟩
        · have hmem := List.mem_of_mem_filter hp'
          obtain ⟨t, ht, htkey, htpend⟩ :=
            entryOkB_eq_true_iff.mp (hsound1 p hmem)
          rw [entryOkB_eq_true_iff]
          refine ⟨t, ?_, htkey, htpend⟩
          obtain ⟨hlt, -⟩ := List.getElem?_eq_some.mp ht
          rw [List.getElem?_append_left hlt]
          exact ht
      · intro i hi
        rw [timerRegisteredB_eq_true_iff]
        intro t' ht' hp'
        by_cases hiL : i = (fireDue now s).timers.length
        · subst hiL
          rw [List.getElem?_concat_length] at ht'
          have := Option.some.inj ht'
          rw [← this]
          exact List.mem_cons_self _ _
        · obtain ⟨hilt, -⟩ := List.getElem?_eq_some.mp ht'
          rw [List.length_append, List.length_singleton] at hilt
          have hiL' : i < (fireDue now s).timers.length := by omega
          rw [List.getElem?_append_left hiL'] at ht'
          have hmem : (t'.key, i) ∈ (fireDue now s).dmap :=
            (timerRegisteredB_eq_true_iff.mp
              (hcomp1 i (List.mem_range.mpr hiL'))) t' ht' hp'
          by_cases hkey : t'.key = key
          · exfalso
            rw [hkey] at hmem
            have := mem_lookupD_isSome hmem
            rw [hlk] at this
            cases this
          · apply List.mem_cons_of_mem
            exact List.mem_filter.mpr
              ⟨hmem, by rw [bne_iff_ne]; exact hkey⟩

theorem inv_stepEv {s : SysState} (h : Inv s) (e : QEvent) :
    Inv (stepEv s e) := by
  cases e with
  | sched key act delay time => exact inv_debounce h key act delay time
  | tick time => exact inv_fireDue time h

theorem inv_foldl_stepEv (evs : List QEvent) :
    ∀ s : SysState, Inv s → Inv (evs.foldl stepEv s) := by
  induction evs with
  | nil => intro s hs; exact hs
  | cons e rest ih =>
      intro s hs
      rw [List.foldl_cons]
      exact ih _ (inv_stepEv hs e)

theorem inv_runEvents (evs : List QEvent) : Inv (runEvents evs) :=
  inv_foldl_stepEv evs startState inv_startState

theorem fireDue_no_due {now : Nat} {s : SysState}
    (h : ∀ t ∈ s.timers, dueB now t = false) : fireDue now s = s := by
  have hfilter : s.timers.filter (dueB now) = [] := by
    rw [List.filter_eq_nil_iff]
    intro a ha
    rw [h a ha]
    simp
  have hmap : s.timers.map
      (fun t => if dueB now t then { t with status := .fired } else t) =
      s.timers := by
    have hid : ∀ a ∈ s.timers,
        (if dueB now a then { a with status := TStatus.fired } else a) =
          a := by
      intro a ha
      rw [h a ha]
      simp
    rw [List.map_congr_left hid, List.map_id']
  simp only [fireDue]
  rw [hfilter, hmap]
  simp

theorem set_concat_length {α : Type} (l : List α) (x y : α) :
    (l ++ [x]).set l.length y = l ++ [y] := by
  induction l with
  | nil => rfl
  | cons a rest ih =>
      show a :: ((rest ++ [x]).set rest.length y) = a :: (rest ++ [y])
      rw [ih]

/-- One burst step: on a state whose only pending timer sits under `key`
with a deadline not yet reached, another `debounce` under `key` fires
nothing, cancels that timer and re-registers a fresh one. -/
theorem debounce_clean_step {s : SysState} {key deadline act0 : Nat}
    (hc : CleanSingle s key deadline act0) (a t' delay : Nat)
    (ht' : t' < deadline) :
    CleanSingle (debounce s key a delay t') key (t' + delay) a := by
  obtain ⟨hfa, hdm, pre, hts, hpre⟩ := hc
  have hnodue : ∀ t ∈ s.timers, dueB t' t = false := by
    intro t htm
    rw [hts] at htm
    rcases List.mem_append.mp htm with hm | hm
    · unfold dueB
      rw [hpre t hm]
      rfl
    · rw [List.mem_singleton.mp hm]
      unfold dueB
      simp [Nat.not_le.mpr ht']
  have hfd : fireDue t' s = s := fireDue_no_due hnodue
  have hlk : lookupD s.dmap key = some (s.timers.length - 1) := by
    rw [hdm]
    simp [lookupD]
  have hidx : s.timers.length - 1 = pre.length := by
    rw [hts]
    simp
  have hcan : cancelTimerAt s.timers (s.timers.length - 1) =
      pre ++ [⟨key, deadline, act0, .cancelled⟩] := by
    rw [hidx, hts]
    unfold cancelTimerAt
    rw [List.getElem?_concat_length]
    exact set_concat_length pre _ _
  have e : debounce s key a delay t' =
      { timers := cancelTimerAt s.timers (s.timers.length - 1) ++
          [⟨key, t' + delay, a, .pend⟩],
        dmap := (key, (cancelTimerAt s.timers (s.timers.length - 1)).length)
          :: s.dmap.filter (fun p => p.1 != key),
        firedActs := s.firedActs,
        observers := s.observers,
        mediaCache := s.mediaCache } := by
    simp only [debounce, hfd, hlk]
  rw [e, hcan]
  refine ⟨hfa, ?_, pre ++ [⟨key, deadline, act0, .cancelled⟩], rfl, ?_⟩
  · rw [hdm]
    simp
  · intro t htm
    rcases List.mem_append.mp htm with hm | hm
    · exact hpre t hm
    · rw [List.mem_singleton.mp hm]

/-- The very first `debounce` of a burst, from the pristine start state. -/
theorem debounce_start_clean (key act delay t : Nat) :
    CleanSingle (debounce startState key act delay t) key (t + delay) act := by
  refine ⟨rfl, rfl, [], rfl, ?_⟩
  intro u hu
  cases hu

/-- Folding the tail of a burst (closure codes `act0 + 1, act0 + 2, …`) over
a clean single-pending state keeps it clean: each call arrives before the
previous deadline, cancels the previous timer, and leaves its own
pending. -/
theorem burst_foldl (key delay : Nat) :
    ∀ (rest : List Nat) (s : SysState) (t0 act0 : Nat),
      CleanSingle s key (t0 + delay) act0 →
      List.Chain' (fun a b => b < a + delay) (t0 :: rest) →
      CleanSingle ((burstFrom key delay (act0 + 1) rest).foldl stepEv s) key
        (rest.getLastD t0 + delay) (act0 + rest.length) := by
  intro rest
  induction rest with
  | nil =>
      intro s t0 act0 hc _
      simpa using hc
  | cons t1 rest' ih =>
      intro s t0 act0 hc hch
      obtain ⟨hlt, hch2⟩ := List.chain'_cons.mp hch
      rw [burstFrom, List.foldl_cons]
      have hstep : stepEv s (.sched key (act0 + 1) delay t1) =
          debounce s key (act0 + 1) delay t1 := rfl
      rw [hstep]
      have hc2 : CleanSingle (debounce s key (act0 + 1) delay t1) key
          (t1 + delay) (act0 + 1) :=
        debounce_clean_step hc (act0 + 1) t1 delay hlt
      have hrec := ih (debounce s key (act0 + 1) delay t1) t1 (act0 + 1)
        hc2 hch2
      rw [List.getLastD_cons, List.length_cons]
      have harith : act0 + (rest'.length + 1) = act0 + 1 + rest'.length := by
        omega
      rw [harith]
      exact hrec

/-- Flushing a clean single-pending state past its deadline fires exactly
the last scheduled closure. -/
theorem fireDue_clean {s : SysState} {key dl act : Nat}
    (hc : CleanSingle s key dl act) {T : Nat} (hT : dl ≤ T) :
    (fireDue T s).firedActs = [act] := by
  obtain ⟨hfa, hdm, pre, hts, hpre⟩ := hc
  rw [fireDue_firedActs, hfa, hts, List.filter_append]
  have h1 : pre.filter (dueB T) = [] := by
    rw [List.filter_eq_nil_iff]
    intro a ha
    unfold dueB
    rw [hpre a ha]
    simp
  have h2 : [(⟨key, dl, act, .pend⟩ : Timer)].filter (dueB T) =
      [⟨key, dl, act, .pend⟩] := by
    rw [List.filter_singleton]
    rw [dueB_of_pend_le rfl hT]
    rfl
  rw [h1, h2]
  rfl

/-- **C4.** Two facts about the debouncer. (i) In every state reachable from
the start state by any sequence of `debounce` calls and timer flushes, at
most one pending timer exists per key: two pending entries of the timer
table sharing a key are the same entry (a new registration cancels the
prior timer, a fired timer clears its own binding). (ii) For a burst of
`N` same-key `debounce` calls, each arriving strictly within `delay` of
the previous, flushing after the last deadline runs exactly one closure —
the last call's. -/
theorem debounce_single_pending_and_burst :
    (∀ (evs : List QEvent) (i j : Nat) (t u : Timer),
      (runEvents evs).timers[i]? = some t →
      (runEvents evs).timers[j]? = some u →
      t.status = .pend → u.status = .pend → t.key = u.key → i = j) ∧
    (∀ (key delay t0 T : Nat) (rest : List Nat),
      List.Chain' (fun a b => b < a + delay) (t0 :: rest) →
      rest.getLastD t0 + delay ≤ T →
      (runEvents (burstEvents key delay (t0 :: rest) ++
        [QEvent.tick T])).firedActs = [(t0 :: rest).length - 1]) := by
  constructor
  · intro evs i j t u hi hj hp hu hk
    have hinv := inv_runEvents evs
    have h1 : (t.key, i) ∈ (runEvents evs).dmap :=
      inv_pend_mem_dmap hinv hi hp
    have h2 : (u.key, j) ∈ (runEvents evs).dmap :=
      inv_pend_mem_dmap hinv hj hu
    rw [← hk] at h2
    exact nodup_keys_eq hinv.1 h1 h2
  · intro key delay t0 T rest hch hT
    rw [runEvents, List.foldl_append, List.foldl_cons, List.foldl_nil]
    have hfold : (burstEvents key delay (t0 :: rest)).foldl stepEv
        startState =
        (burstFrom key delay 1 rest).foldl stepEv
          (debounce startState key 0 delay t0) := by
      rw [burstEvents, burstFrom, List.foldl_cons]
      rfl
    rw [hfold]
    have hburst := burst_foldl key delay rest
      (debounce startState key 0 delay t0) t0 0
      (debounce_start_clean key 0 delay t0) hch
    have hfire := fireDue_clean hburst hT
    simpa using hfire

/-- Witness for `debounce_single_pending_and_burst`: five schedulings of the
`'navigation'` timer at 10 ms intervals (delay 100 ms) fire exactly the
fifth closure once the clock passes 140 ms; and in the state after two
same-key schedulings, the pending timer's table slot is unique. -/
theorem debounce_single_pending_and_burst_witness :
    (runEvents (burstEvents 1 100 [0, 10, 20, 30, 40] ++
      [QEvent.tick 200])).firedActs = [4] ∧ (1 : Nat) = 1 := by
  constructor
  · refine debounce_single_pending_and_burst.2 1 100 0 200 [10, 20, 30, 40]
      ?_ (by decide)
    show List.Chain (fun a b => b < a + 100) 0 [10, 20, 30, 40]
    refine List.Chain.cons (by decide) ?_
    refine List.Chain.cons (by decide) ?_
    refine List.Chain.cons (by decide) ?_
    refine List.Chain.cons (by decide) ?_
    exact List.Chain.nil
  · exact debounce_single_pending_and_burst.1
      [.sched 1 0 100 0, .sched 1 1 100 10] 1 1
      ⟨1, 110, 1, .pend⟩ ⟨1, 110, 1, .pend⟩ (by decide) (by decide) rfl rfl
      rfl

theorem dueB_eq_false_of_not_pend {now : Nat} {t : Timer}
    (h : t.status ≠ .pend) : dueB now t = false := by
  unfold dueB
  cases hs : t.status with
  | pend => exact absurd hs h
  | cancelled => rfl
  | fired => rfl

/-- The cleanup loop over `debounceTimers` cancels exactly the table slots
the map references, leaving every other slot untouched. -/
theorem foldl_cancel_getElem? :
    ∀ (l : List (Nat × Nat)) (ts : List Timer) (i : Nat),
      (l.foldl (fun acc p => cancelTimerAt acc p.2) ts)[i]? =
        if l.any (fun p => p.2 == i) then
          (ts[i]?).map (fun t => { t with status := .cancelled })
        else ts[i]? := by
  intro l
  induction l with
  | nil =>
      intro ts i
      simp
  | cons p rest ih =>
      intro ts i
      rw [List.foldl_cons, ih (cancelTimerAt ts p.2) i,
        cancelTimerAt_getElem?]
      by_cases hpi : p.2 = i <;>
        by_cases hrest : rest.any (fun q => q.2 == i) = true <;>
          cases h : ts[i]? <;>
            simp [List.any_cons, hpi, hrest, h]

theorem cleanup_timers (s : SysState) :
    (cleanup s).1.timers =
      s.dmap.foldl (fun ts p => cancelTimerAt ts p.2) s.timers := rfl

theorem cleanup_observers (s : SysState) :
    (cleanup s).2 = s.observers.map (fun _ => { connected := false }) := rfl

/-- **C8.** After `cleanup`, every previously pending debounce timer has
been cancelled, so no later flush fires any closure; every observer the
module stored has been disconnected and never reacts to another batch;
and the media cache is empty. (The pending-timers part needs the
debouncer invariant: every pending timer is reachable through
`debounceTimers`, which is exactly what the cleanup loop walks.) -/
theorem cleanup_teardown {s : SysState} (h : Inv s) :
    (∀ (i : Nat) (t : Timer), s.timers[i]? = some t → t.status = .pend →
      (cleanup s).1.timers[i]? = some { t with status := .cancelled }) ∧
    (∀ (i : Nat) (t : Timer), (cleanup s).1.timers[i]? = some t →
      t.status ≠ .pend) ∧
    (∀ now, (fireDue now (cleanup s).1).firedActs =
      (cleanup s).1.firedActs) ∧
    (∀ o ∈ (cleanup s).2, o.connected = false) ∧
    (∀ o ∈ (cleanup s).2, ∀ (ctx : WatchCtx) (records : List MRecord)
      (a : Actions), deliverBatch ctx records (o, a) = (o, a)) ∧
    (cleanup s).1.mediaCache = [] := by
  have hcancel : ∀ (i : Nat) (t : Timer), s.timers[i]? = some t →
      t.status = .pend →
      (cleanup s).1.timers[i]? = some { t with status := .cancelled } := by
    intro i t ht hp
    have hmem : (t.key, i) ∈ s.dmap := inv_pend_mem_dmap h ht hp
    have hany : s.dmap.any (fun p => p.2 == i) = true :=
      List.any_eq_true.mpr ⟨(t.key, i), hmem, by simp⟩
    rw [cleanup_timers, foldl_cancel_getElem?, if_pos hany, ht]
    rfl
  have hnopend : ∀ (i : Nat) (t : Timer),
      (cleanup s).1.timers[i]? = some t → t.status ≠ .pend := by
    intro i t ht
    rw [cleanup_timers, foldl_cancel_getElem?] at ht
    by_cases hany : s.dmap.any (fun p => p.2 == i) = true
    · rw [if_pos hany] at ht
      cases h0 : s.timers[i]? with
      | none =>
          rw [h0] at ht
          cases ht
      | some u =>
          rw [h0] at ht
          have := Option.some.inj ht
          rw [← this]
          intro hcon
          cases hcon
    · rw [if_neg hany] at ht
      intro hp
      have hmem : (t.key, i) ∈ s.dmap := inv_pend_mem_dmap h ht hp
      exact hany (List.any_eq_true.mpr ⟨(t.key, i), hmem, by simp⟩)
  refine ⟨hcancel, hnopend, ?_, ?_, ?_, rfl⟩
  · intro now
    rw [fireDue_firedActs]
    have hfilter : (cleanup s).1.timers.filter (dueB now) = [] := by
      rw [List.filter_eq_nil_iff]
      intro a ha
      obtain ⟨i, hi⟩ := List.mem_iff_getElem?.mp ha
      rw [dueB_eq_false_of_not_pend (hnopend i a hi)]
      simp
    rw [hfilter]
    simp
  · intro o ho
    rw [cleanup_observers] at ho
    obtain ⟨-, -, rfl⟩ := List.mem_map.mp ho
    rfl
  · intro o ho ctx records a
    rw [cleanup_observers] at ho
    obtain ⟨-, -, rfl⟩ := List.mem_map.mp ho
    simp [deliverBatch]

/-- Witness for `cleanup_teardown` on a state holding one pending
`'navigation'` timer, one armed observer and one cached payload. -/
theorem cleanup_teardown_witness :
    (cleanup ⟨[⟨1, 100, 0, .pend⟩], [(1, 0)], [], [⟨true⟩],
      [(7, ⟨⟨"image", "u", none⟩, 0⟩)]⟩).1.timers[0]? =
      some ⟨1, 100, 0, .cancelled⟩ ∧
    (cleanup ⟨[⟨1, 100, 0, .pend⟩], [(1, 0)], [], [⟨true⟩],
      [(7, ⟨⟨"image", "u", none⟩, 0⟩)]⟩).1.mediaCache = [] := by
  have h := cleanup_teardown
    (s := ⟨[⟨1, 100, 0, .pend⟩], [(1, 0)], [], [⟨true⟩],
      [(7, ⟨⟨"image", "u", none⟩, 0⟩)]⟩) (by decide)
  exact ⟨h.1 0 ⟨1, 100, 0, .pend⟩ rfl rfl, h.2.2.2.2.2⟩

end QuizPerf
